import Mathlib

/-!
Verification of the name-reconciliation and database-integrity subsystem of
`py-utils` (`src/qual_ctrl.py` and `src/integrity.py`), as a shallow embedding.

Python strings are modelled as `String` (lists of characters); Python sets and
dicts of strings as lists and association lists (only membership and first-key
lookup are used by the source); pandas DataFrames as lists of row structures;
a raised Python exception as the `Except.error` / `Option.none` branch of the
embedded function's result.
-/

namespace PyUtils

/-- Whitespace predicate: model of Python's `\s` and `str.strip` character
class (source names are ASCII, so the ASCII fragment suffices). -/
def isWS (c : Char) : Bool := c.isWhitespace

/-- Model of Python `str.strip()`: remove leading and trailing whitespace. -/
def stripChars (s : List Char) : List Char :=
  ((s.dropWhile isWS).reverse.dropWhile isWS).reverse

/-- The apostrophe character (code point 39). -/
def apos : Char := Char.ofNat 39

/-! ### Levenshtein distance (`nltk.metrics.distance.edit_distance` with the
default costs: unit insert/delete/substitute, no transpositions).
Implemented as the standard dynamic-programming row recurrence. -/

/-- One inner step of the DP: given the previous row (`p0 :: p1 :: ps`
aligned with `y :: ys`) and the cell to the left, produce the rest of the
current row. -/
def levAux (x : Char) : List Char → List Nat → Nat → List Nat
  | y :: ys, p0 :: p1 :: ps, left =>
    let d := min (min (p1 + 1) (left + 1)) (p0 + if x = y then 0 else 1)
    d :: levAux x ys (p1 :: ps) d
  | _, _, _ => []

/-- Levenshtein distance between two character lists. -/
def levChars (a b : List Char) : Nat :=
  let row0 := List.range (b.length + 1)
  let final := a.foldl
    (fun prev x =>
      let left := prev.headD 0 + 1
      left :: levAux x b prev left) row0
  final.getLastD 0

/-- `edit_distance(s1, s2)` from nltk, on the `String` model. -/
def edit_distance (a b : String) : Nat := levChars a.data b.data

/-! ### The `Name` regex (qual_ctrl.py lines 165-167)

`^(?P<first>.+?)\s(?P<last>[^\s,]+)(,?\s(?P<suffix>[JS]r\.?|III?|IV|V))?$`

The embedding reproduces the backtracking semantics of this one pattern on
the strings it is actually applied to:
* `first` is non-greedy (`.+?`), so candidate split points are tried left to
  right; `.` matches any character except a newline;
* `last` is a greedy run of non-whitespace, non-comma characters.  Shrinking
  this run can never help: the character following a shortened run would be
  another `[^\s,]` character, on which neither `,?\s` nor `$` can succeed, so
  only the maximal run is considered;
* the optional suffix group is greedy (tried as present first, and `,?`
  consumes a comma first); because the pattern then requires `$`, the group
  plus anchor succeed exactly when the remainder is an optional comma, one
  whitespace character, and one member of the suffix vocabulary;
* `Name.__init__` matches the *stripped* string, which has no trailing
  newline, so `$` is end-of-string.
-/

/-- A character `last` may contain: `[^\s,]`. -/
def isLastChar (c : Char) : Bool := !(isWS c) && c != ','

/-- The suffix vocabulary generated by `[JS]r\.?|III?|IV|V` (a whole-remainder
match, see above). -/
def suffixStrings : List (List Char) :=
  [['J', 'r', '.'], ['J', 'r'], ['S', 'r', '.'], ['S', 'r'],
   ['I', 'I', 'I'], ['I', 'I'], ['I', 'V'], ['V']]

/-- Match `(,?\s(?P<suffix>...))?$` against the remainder `r`:
`some suff` when the pattern matches with suffix group `suff`,
`none` when the whole regex fails at this split. -/
def matchOptSuffix : List Char → Option (Option (List Char))
  | [] => some none
  | ',' :: w :: rest =>
    if isWS w ∧ rest ∈ suffixStrings then some (some rest) else none
  | w :: rest =>
    if isWS w ∧ rest ∈ suffixStrings then some (some rest) else none

/-- Try the match with `first = s.take i` (the separator `\s` at index `i`). -/
def matchTailAt (s : List Char) (i : Nat) :
    Option (List Char × List Char × Option (List Char)) :=
  let t := s.drop (i + 1)
  let lastc := t.takeWhile isLastChar
  if lastc.isEmpty then none
  else (matchOptSuffix (t.drop lastc.length)).map (fun suff => (s.take i, lastc, suff))

/-- Candidate split points for the non-greedy `first`: positions `i ≥ 1`
holding a whitespace character such that `first = s.take i` contains no
newline, in the order the regex engine tries them. -/
def nameSplits (s : List Char) : List Nat :=
  (List.range s.length).filter
    (fun i => decide (0 < i) && (s.take i).all (fun c => c != '\n')
      && isWS (s.getD i ' '))

/-- Full-name regex match: `some (first, last, suffix?)` or `none`. -/
def matchFullName (s : List Char) :
    Option (List Char × List Char × Option (List Char)) :=
  ((nameSplits s).filterMap (matchTailAt s)).head?

/-- `Name` (qual_ctrl.py lines 159-178): the data container built by
`Name.__init__`, which strips the input and decomposes it with the regex. -/
structure PName where
  full_name : String
  first : List Char
  last : List Char
  suffix : Option (List Char)
deriving DecidableEq, Repr

/-- `Name(full_name)`: `none` models the exception raised when the regex does
not match (`m` is `None` and `m.group` raises). -/
def mkName? (s : String) : Option PName :=
  let t := stripChars s.data
  match matchFullName t with
  | some (f, l, suf) => some ⟨String.mk t, f, l, suf⟩
  | none => none

/-- `create_name_objects` (qual_ctrl.py lines 181-196): build `Name` objects,
silently skipping entries whose construction raises. -/
def create_name_objects (names : List String) : List PName :=
  names.filterMap mkName?

/-! ### `NameConverter` (qual_ctrl.py lines 17-78) -/

/-- State of a `NameConverter`.  `known_pairs` is the dict loaded by
`load_same_name_pairs` (an association list: keys unique, first match is the
dict lookup); `known_missing` and `known` are the loaded sets;
`unhandled_names` is the mutable set grown by `clean`. -/
structure NameConverter where
  known_pairs : List (String × String)
  known_missing : List String
  known : List String
  unhandled_names : List String
  raise_exc : Bool
deriving DecidableEq, Repr

/-- `NameConverter.clean` (qual_ctrl.py lines 51-61).  The result pairs the
(possibly mutated) converter with `Except.error` for the raised
`PMissingError`, `Except.ok none` for Python's implicit `None` return in
lenient mode, and `Except.ok (some name)` for a returned name. -/
def NameConverter.clean (c : NameConverter) (name : String) :
    NameConverter × Except String (Option String) :=
  match c.known_pairs.lookup name with
  | some v => (c, .ok (some v))
  | none =>
    if name ∈ c.known_missing ∨ name ∈ c.known then (c, .ok (some name))
    else
      let c' := { c with unhandled_names :=
        if name ∈ c.unhandled_names then c.unhandled_names
        else name :: c.unhandled_names }
      if c.raise_exc then
        (c', .error (name ++
          " not found in data, associated pairs, or known to be missing."))
      else (c', .ok none)

/-- `NameConverter.is_problematic` (qual_ctrl.py lines 63-71).  The method is
given the full state-passing signature so that its read-only behaviour is a
theorem rather than a typing artefact. -/
def NameConverter.is_problematic (c : NameConverter) (name : String) :
    NameConverter × Bool × String :=
  match c.known_pairs.lookup name with
  | some v => (c, true, "Should be " ++ v ++ ".")
  | none =>
    if name ∈ c.known_missing then (c, false, "Known to be missing from PStats.")
    else if name ∈ c.known then (c, false, "In PStats.")
    else (c, true,
      "Not in PStats, no associated name, and not known to be missing.")

/-! ### `AbbreviatedNameWizard` (qual_ctrl.py lines 199-248) -/

/-- Sorting key relation for `name_edit_distances`: compare the distance
component (Python `sort` with `key=itemgetter(1)` is stable, as is
`insertionSort`). -/
def distLE (p q : String × Nat) : Prop := p.2 ≤ q.2

instance : DecidableRel distLE :=
  fun p q => inferInstanceAs (Decidable (p.2 ≤ q.2))

/-- `name_edit_distances` (qual_ctrl.py lines 335-352): pair each candidate
with its distance to `ref` (note the source argument order
`edit_distance(name, ref_name)`), stably sorted by distance. -/
def name_edit_distances (ref : String) (others : List String) :
    List (String × Nat) :=
  List.insertionSort distLE (others.map (fun n => (n, edit_distance n ref)))

/-- State of an `AbbreviatedNameWizard`; `used_levenshtein` is the dict of
logged fallback resolutions (newest first). -/
structure AbbrevWizard where
  raw_names : List String
  name_objs : List PName
  used_levenshtein : List (String × String)
deriving DecidableEq, Repr

/-- `AbbreviatedNameWizard.__init__`. -/
def AbbrevWizard.init (univ : List String) : AbbrevWizard :=
  ⟨univ, create_name_objects univ, []⟩

/-- `__get_first_init_last_name`: `abbrev[0]` raises on an empty string
(`none`); `abbrev[3:]` is total. -/
def getFirstInitLastName (abb : String) : Option (Char × List Char) :=
  match abb.data with
  | [] => none
  | c :: _ => some (c, abb.data.drop 3)

/-- The first-initial / last-name scan in `full_name`: skip entries whose
last name differs; on a last-name hit, `name.first[0]` is read (a raise,
`none`, if `first` were empty) and compared with the initial.
`some (some r)` = scan returned `r`; `some none` = scan fell through. -/
def scanNames : List PName → Char → List Char → Option (Option String)
  | [], _, _ => some none
  | n :: ns, init, lastn =>
    if n.last ≠ lastn then scanNames ns init lastn
    else
      match n.first with
      | [] => none
      | c :: _ =>
        if c = init then some (some n.full_name) else scanNames ns init lastn

/-- `AbbreviatedNameWizard.full_name` (qual_ctrl.py lines 223-244): the scan,
then the edit-distance fallback (`edit_distances[0]` raises on an empty
universe).  `none` models a raised exception. -/
def AbbrevWizard.full_name (w : AbbrevWizard) (abb : String) :
    Option (String × AbbrevWizard) :=
  match getFirstInitLastName abb with
  | none => none
  | some (init, lastn) =>
    match scanNames w.name_objs init lastn with
    | none => none
    | some (some res) => some (res, w)
    | some none =>
      match name_edit_distances abb w.raw_names with
      | [] => none
      | (res, _) :: _ =>
        some (res, { w with used_levenshtein := (abb, res) :: w.used_levenshtein })

/-! ### `AliasWizard` (qual_ctrl.py lines 123-155) -/

/-- The nickname spreadsheet: rows of `(name, nickname)`. -/
structure AliasWizard where
  pairs : List (String × String)
deriving DecidableEq, Repr

/-- First-occurrence deduplication with an accumulator of already-seen
elements. -/
def uniqueFirstAux {α : Type} [DecidableEq α] (seen : List α) :
    List α → List α
  | [] => []
  | x :: xs =>
    if x ∈ seen then uniqueFirstAux seen xs
    else x :: uniqueFirstAux (x :: seen) xs

/-- First-occurrence deduplication: model of pandas `unique()` (order of
first occurrence is preserved). -/
def uniqueFirst {α : Type} [DecidableEq α] (l : List α) : List α :=
  uniqueFirstAux [] l

/-- `AliasWizard.get_aliases` (qual_ctrl.py lines 134-147). -/
def AliasWizard.get_aliases (w : AliasWizard) (name : String) :
    Option (List String) :=
  if name ∈ w.pairs.map Prod.fst then
    some (uniqueFirst ((w.pairs.filter (fun p => p.1 == name)).map Prod.snd))
  else if name ∈ w.pairs.map Prod.snd then
    some (uniqueFirst ((w.pairs.filter (fun p => p.2 == name)).map Prod.fst))
  else none

/-! ### `MostSimilarNameWizard` (qual_ctrl.py lines 251-332) -/

/-- The two distinct exceptions `solve` can raise: the `AttributeError` from
decomposing a non-matching name (`m` is `None`), and `PMissingError`. -/
inductive SolveErr
  | attrError
  | pMissing
deriving DecidableEq, Repr

/-- `[A-Z][A-Z]` matched as a prefix of `first` (`re.match`). -/
def isUpperAZ (c : Char) : Bool := 'A' ≤ c && c ≤ 'Z'

/-- `__rgx_abbr_no_periods.match(first)`. -/
def matchAbbrNoPeriods (first : List Char) : Bool :=
  match first with
  | a :: b :: _ => isUpperAZ a && isUpperAZ b
  | _ => false

/-- `[A-Z]\.[A-Z]\.` matched as a prefix of `first`. -/
def matchAbbrPeriods (first : List Char) : Bool :=
  match first with
  | a :: p1 :: b :: p2 :: _ => isUpperAZ a && p1 == '.' && isUpperAZ b && p2 == '.'
  | _ => false

/-- Python `str.split(sep)` on a single-character separator. -/
def splitChars (sep : Char) (l : List Char) : List (List Char) :=
  match l with
  | [] => [[]]
  | c :: rest =>
    let r := splitChars sep rest
    if c = sep then [] :: r
    else
      match r with
      | h :: t => (c :: h) :: t
      | [] => [[c]]

/-- `MostSimilarNameWizard.solve` (qual_ctrl.py lines 278-332).  The
decomposition (`__break_down_name_components`) matches the *unstripped*
input; rules 2-4 (initials without/with periods, suffix) raise on failure,
rules 5-7 (apostrophes, hyphen split, alias) fall through. -/
def solve (univ : List String) (w : AliasWizard) (full_name : String) :
    Except SolveErr String :=
  if full_name ∈ univ then .ok full_name
  else
    match matchFullName full_name.data with
    | none => .error .attrError
    | some (first, last, suffix) =>
      if matchAbbrNoPeriods first then
        let nn := String.mk ([first.getD 0 ' ', '.', first.getD 1 ' ', '.', ' '] ++ last)
        if nn ∈ univ then .ok nn else .error .pMissing
      else if matchAbbrPeriods first then
        let nn := String.mk (first.filter (fun c => c != '.') ++ [' '] ++ last)
        if nn ∈ univ then .ok nn else .error .pMissing
      else if suffix.isSome then
        let nn := String.mk (first ++ [' '] ++ last)
        if nn ∈ univ then .ok nn else .error .pMissing
      else
        let ap1 : Option String :=
          if first.contains apos then
            let nn := String.mk (first.filter (fun c => c != apos) ++ [' '] ++ last)
            if nn ∈ univ then some nn else none
          else none
        match ap1 with
        | some nn => .ok nn
        | none =>
          let ap2 : Option String :=
            if last.contains apos then
              let nn := String.mk (first ++ [' '] ++ last.filter (fun c => c != apos))
              if nn ∈ univ then some nn else none
            else none
          match ap2 with
          | some nn => .ok nn
          | none =>
            let hy : Option String :=
              if last.contains '-' then
                ((splitChars '-' last).map
                    (fun n => String.mk (first ++ [' '] ++ n))).find?
                  (fun nn => decide (nn ∈ univ))
              else none
            match hy with
            | some nn => .ok nn
            | none =>
              match w.get_aliases (String.mk first) with
              | some aliases =>
                match (aliases.map (fun a => a ++ String.mk (' ' :: last))).find?
                    (fun nn => decide (nn ∈ univ)) with
                | some nn => .ok nn
                | none => .error .pMissing
              | none => .error .pMissing

/-! ### `DBIntegrityCheck` (integrity.py)

Boundary constants: `MAX_OPEN_SPREAD = 25`, `MAX_OPEN_PTS = 250`,
`MIN_OPEN_PTS = 150`, `MAX_LEVENSHTEIN = 4`. -/

/-- A row of the `pstats` snapshot (the columns `integrity.py` reads). -/
structure PRow where
  gd : Nat
  team : String
  opp : String
  gid : Nat
  tsid : Nat
  player : String
  starter : Bool
deriving DecidableEq, Repr

/-- A row of the `tstats` snapshot (the columns `integrity.py` reads). -/
structure TRow where
  id : Nat
  gid : Nat
  gd : Nat
  team : String
  opp : String
  home : Bool
  ot : Nat
  open_spread : Int
  open_pts : Int
deriving DecidableEq, Repr

/-- A row of `err_log` (`_log`, integrity.py lines 245-247). -/
structure LogEntry where
  table : String
  id : String
  info : String
deriving DecidableEq, Repr

/-- A row of `name_log`. -/
structure NameLogEntry where
  name1 : String
  name2 : String
  dist : Nat
deriving DecidableEq, Repr

/-- `_names_are_equiv` (integrity.py lines 104-110): the pair `(a, b)` equals
a known pair as a multiset (`sequences_equal` with `order=False` compares
element counts, so for 2-tuples: equal or swapped). -/
def names_are_equiv (known_sim : List (String × String)) (a b : String) : Bool :=
  known_sim.any (fun p => (p.1 == a && p.2 == b) || (p.1 == b && p.2 == a))

/-- `__inspect_gid_grp` (integrity.py lines 112-169): the ordered team-pair
checklist; the first failing check logs one entry and returns. -/
def inspect_gid_grp (grp : List TRow) (gid : Nat) : List LogEntry :=
  let log := fun (info : String) => [⟨"TStats", "gid = " ++ toString gid, info⟩]
  match grp with
  | [r1, r2] =>
    if r1.gd ≠ r2.gd then log "gd count != 1"
    else if r1.team ≠ r2.opp ∨ r1.opp ≠ r2.team then log "opp/team mismatch"
    else if r1.home ∧ r2.home then log "2 home teams"
    else if ¬r1.home ∧ ¬r2.home then log "2 away teams"
    else if r1.ot ≠ r2.ot then log "OT periods different"
    else if r1.open_spread ≠ -r2.open_spread then
      log "open_spread not negative versions of each other"
    else if 25 < |r1.open_spread| then log "open_spread > MAX_OPEN_SPREAD"
    else if r1.open_pts ≠ r2.open_pts then log "open_pts different"
    else if 250 < r1.open_pts ∨ r1.open_pts < 150 then
      log "open_pts outside boundaries"
    else []
  | _ => log "Row count != 2"

/-- `__inspect_team_gd_group` (integrity.py lines 171-233): the ordered
player-group checklist.  `opp_gids[0]` is the one unguarded subscript: when
the opponent slice is empty it raises `IndexError` (`Except.error`); every
other subscript is reached only behind a count check. -/
def inspect_team_gd_group (pstats : List PRow) (tstats : List TRow)
    (grp : List PRow) (gd : Nat) (team : String) :
    Except String (List LogEntry) :=
  let did := "gd/team grp (" ++ toString gd ++ "/" ++ team ++ ")"
  if grp.length < 7 then .ok [⟨"PStats", did, "Row count < 7"⟩]
  else if (grp.filter (fun r => r.starter)).length ≠ 5 then
    .ok [⟨"PStats", did, "starter count != 5"⟩]
  else
    let gids := uniqueFirst (grp.map (fun r => r.gid))
    if gids.length ≠ 1 then .ok [⟨"PStats", did, "gid count != 1"⟩]
    else
      let opponents := uniqueFirst (grp.map (fun r => r.opp))
      if opponents.length ≠ 1 then .ok [⟨"PStats", did, "opp count != 1"⟩]
      else
        let opp_df := pstats.filter
          (fun r => r.team == opponents.headD "" && r.gd == gd)
        match uniqueFirst (opp_df.map (fun r => r.gid)) with
        | [] => .error "IndexError: list index out of range"
        | og :: _ =>
          if gids.headD 0 ≠ og then .ok [⟨"PStats", did, "opp gid != gid"⟩]
          else
            let tsids := uniqueFirst (grp.map (fun r => r.tsid))
            if tsids.length ≠ 1 then .ok [⟨"PStats", did, "tsid count != 1"⟩]
            else
              match tstats.filter (fun t => t.id == tsids.headD 0) with
              | [t] =>
                if gd ≠ t.gd then .ok [⟨"TStats", did, "TStats.GD != GD"⟩]
                else if t.team ≠ team then
                  .ok [⟨"TStats", did, "TStats.team != team"⟩]
                else if grp.length ≠ (uniqueFirst (grp.map (fun r => r.player))).length
                then .ok [⟨"PStats", did, "Duplicate name"⟩]
                else .ok []
              | _ => .ok [⟨"TStats", did, "TStats.id = tsid match count != 1"⟩]

/-- Ordering of `(gd, team)` group keys (pandas `groupby` sorts keys). -/
def keyLE (a b : Nat × String) : Prop :=
  a.1 < b.1 ∨ (a.1 = b.1 ∧ a.2 ≤ b.2)

instance : DecidableRel keyLE :=
  fun a b => inferInstanceAs (Decidable (a.1 < b.1 ∨ (a.1 = b.1 ∧ a.2 ≤ b.2)))

/-- `self.pstats.groupby(['gd', 'team'])`: sorted keys, each with its slice
in original row order. -/
def groupby_gd_team (pstats : List PRow) : List ((Nat × String) × List PRow) :=
  (List.insertionSort keyLE
      (uniqueFirst (pstats.map (fun r => (r.gd, r.team))))).map
    (fun k => (k, pstats.filter (fun r => r.gd == k.1 && r.team == k.2)))

/-- `self.tstats.groupby('gid')`. -/
def groupby_gid (tstats : List TRow) : List (Nat × List TRow) :=
  (List.insertionSort (fun a b => a ≤ b)
      (uniqueFirst (tstats.map (fun r => r.gid)))).map
    (fun g => (g, tstats.filter (fun r => r.gid == g)))

/-- `inspect_pstats` (integrity.py lines 94-98): run the player-group
checklist over every `(gd, team)` group, accumulating the log; an exception
in any group aborts the pass. -/
def inspect_pstats (pstats : List PRow) (tstats : List TRow) :
    Except String (List LogEntry) :=
  (groupby_gd_team pstats).foldlM
    (fun acc kg => do
      let es ← inspect_team_gd_group pstats tstats kg.2 kg.1.1 kg.1.2
      pure (acc ++ es))
    []

/-- `inspect_tstats` (integrity.py lines 100-102). -/
def inspect_tstats (tstats : List TRow) : List LogEntry :=
  (groupby_gid tstats).foldl (fun acc g => acc ++ inspect_gid_grp g.2 g.1) []

/-- The per-reference-name rows produced by `inspect_pstats_names`
(integrity.py lines 65-75): for each name in turn, the later names within
edit distance `< 4` that are not known-equivalent, closest first. -/
def pstats_name_rows (known_sim : List (String × String)) :
    List String → List NameLogEntry
  | [] => []
  | r :: rest =>
    ((name_edit_distances r rest).filter (fun p => p.2 < 4)).filterMap
        (fun p => if names_are_equiv known_sim r p.1 then none
          else some ⟨r, p.1, p.2⟩)
      ++ pstats_name_rows known_sim rest

/-- Final ordering of `name_log` (`sort_values(by='name1', ascending=False)`;
the pandas default quicksort fixes no order among equal keys, and membership
is unaffected by the choice). -/
def nameLogGE (a b : NameLogEntry) : Prop := b.name1 ≤ a.name1

instance : DecidableRel nameLogGE :=
  fun a b => inferInstanceAs (Decidable (b.name1 ≤ a.name1))

/-- `inspect_pstats_names` (integrity.py lines 59-77). -/
def inspect_pstats_names (pstats : List PRow)
    (known_sim : List (String × String)) : List NameLogEntry :=
  List.insertionSort nameLogGE
    (pstats_name_rows known_sim (uniqueFirst (pstats.map (fun r => r.player))))

/-- `inspect_names_in_table` (integrity.py lines 87-92): log each name whose
`is_problematic` flag is `True` (reading, never writing, converter state). -/
def inspect_names_in_table (conv : NameConverter) (names : List String)
    (table : String) : List LogEntry :=
  names.filterMap (fun n =>
    let r := conv.is_problematic n
    if r.2.1 then some ⟨table, n, r.2.2⟩ else none)

/-- `DBIntegrityCheck.run` (integrity.py lines 51-57) on loaded snapshots:
the five inspection passes in order; the error log and name log they build,
or the first uncaught exception. -/
structure CheckState where
  err_log : List LogEntry
  name_log : List NameLogEntry
deriving DecidableEq, Repr

def DBIntegrityCheck.run (pstats : List PRow) (tstats : List TRow)
    (inj news : List String) (known_sim : List (String × String))
    (conv : NameConverter) : Except String CheckState := do
  let e1 ← inspect_pstats pstats tstats
  let e2 := inspect_tstats tstats
  let nlog := inspect_pstats_names pstats known_sim
  let e3 := inspect_names_in_table conv (uniqueFirst inj) "injuries"
  let e4 := inspect_names_in_table conv (uniqueFirst news) "news"
  pure ⟨e1 ++ e2 ++ e3 ++ e4, nlog⟩

/-! ## Supporting lemmas -/

theorem dropWhile_cons_self {α : Type} {p : α → Bool} {x : α} {xs : List α}
    (h : List.dropWhile p (x :: xs) = x :: xs) : p x = false := by
  have hx := List.dropWhile_eq_self_iff.mp h (by simp)
  simpa using hx

theorem dropWhile_idem {α : Type} (p : α → Bool) (l : List α) :
    (l.dropWhile p).dropWhile p = l.dropWhile p := by
  induction l with
  | nil => rfl
  | cons x xs ih =>
    by_cases h : p x
    · rw [List.dropWhile_cons_of_pos h]
      exact ih
    · rw [List.dropWhile_cons_of_neg h, List.dropWhile_cons_of_neg h]

/-- Stripping is idempotent: a stripped string strips to itself. -/
theorem stripChars_idem (l : List Char) :
    stripChars (stripChars l) = stripChars l := by
  unfold stripChars
  set a := l.dropWhile isWS with ha
  set b := a.reverse.dropWhile isWS with hb
  have haa : a.dropWhile isWS = a := ha ▸ dropWhile_idem isWS l
  have h2 : b.dropWhile isWS = b := hb ▸ dropWhile_idem isWS a.reverse
  have h1 : b.reverse.dropWhile isWS = b.reverse := by
    cases hc : b.reverse with
    | nil => rfl
    | cons x xs =>
      have hsuf : b <:+ a.reverse := hb ▸ List.dropWhile_suffix isWS
      have hpre : b.reverse <+: a := by
        have := List.reverse_prefix.mpr hsuf
        rwa [List.reverse_reverse] at this
      rw [hc] at hpre
      obtain ⟨rest, hrest⟩ := hpre
      rw [List.cons_append] at hrest
      rw [← hrest] at haa
      have hx : isWS x = false := dropWhile_cons_self haa
      rw [List.dropWhile_cons_of_neg (by simp [hx])]
  rw [h1, List.reverse_reverse, h2]

/-- A successful `mkName?` records the stripped input and its regex
decomposition. -/
theorem mkName_spec {u : String} {nm : PName} (h : mkName? u = some nm) :
    nm.full_name = String.mk (stripChars u.data) ∧
      matchFullName (stripChars u.data) = some (nm.first, nm.last, nm.suffix) := by
  simp only [mkName?] at h
  cases hm : matchFullName (stripChars u.data) with
  | none => rw [hm] at h; cases h
  | some r =>
    obtain ⟨f, l, suf⟩ := r
    rw [hm] at h
    cases h
    exact ⟨rfl, rfl⟩

theorem mkName_none {u : String} (h : mkName? u = none) :
    matchFullName (stripChars u.data) = none := by
  cases hm : matchFullName (stripChars u.data) with
  | none => rfl
  | some r =>
    obtain ⟨f, l, suf⟩ := r
    simp only [mkName?] at h
    rw [hm] at h
    cases h

/-- The regex never produces an empty first name (`first` is `.+?`). -/
theorem matchFullName_first_ne_nil {s f l : List Char}
    {suf : Option (List Char)} (h : matchFullName s = some (f, l, suf)) :
    f ≠ [] := by
  have hmem : (f, l, suf) ∈ (nameSplits s).filterMap (matchTailAt s) := by
    apply List.mem_of_mem_head?
    rw [matchFullName] at h
    rw [h]
    rfl
  obtain ⟨i, hi, hmt⟩ := List.mem_filterMap.mp hmem
  have hipos : 0 < i := by
    unfold nameSplits at hi
    have hcond := (List.mem_filter.mp hi).2
    simp only [Bool.and_eq_true, decide_eq_true_eq] at hcond
    exact hcond.1.1
  have hilt : i < s.length := by
    unfold nameSplits at hi
    exact List.mem_range.mp (List.mem_filter.mp hi).1
  simp only [matchTailAt] at hmt
  split_ifs at hmt
  obtain ⟨suff, _, heq⟩ := Option.map_eq_some'.mp hmt
  have hf : f = s.take i := by
    have := congrArg Prod.fst heq
    exact this.symm
  rw [hf]
  intro hnil
  rcases List.take_eq_nil_iff.mp hnil with h0 | h0
  · omega
  · rw [h0] at hilt
    simp at hilt

theorem scanNames_ne_none {ns : List PName} {init : Char} {lastn : List Char}
    (h : ∀ n ∈ ns, n.first ≠ []) : scanNames ns init lastn ≠ none := by
  induction ns with
  | nil => simp [scanNames]
  | cons n ns ih =>
    have hn := h n (List.mem_cons_self _ _)
    have htl : ∀ m ∈ ns, m.first ≠ [] :=
      fun m hm => h m (List.mem_cons_of_mem _ hm)
    unfold scanNames
    split_ifs with hl
    · exact ih htl
    · cases hf : n.first with
      | nil => exact absurd hf hn
      | cons c cs =>
        show (if c = init then some (some n.full_name)
          else scanNames ns init lastn) ≠ none
        split_ifs
        · simp
        · exact ih htl

theorem scanNames_mem {ns : List PName} {init : Char} {lastn : List Char}
    {r : String} (h : scanNames ns init lastn = some (some r)) :
    ∃ n ∈ ns, r = n.full_name := by
  induction ns with
  | nil => simp [scanNames] at h
  | cons n ns ih =>
    unfold scanNames at h
    split_ifs at h with hl
    · obtain ⟨m, hm, he⟩ := ih h
      exact ⟨m, List.mem_cons_of_mem _ hm, he⟩
    · cases hf : n.first with
      | nil => rw [hf] at h; cases h
      | cons c cs =>
        rw [hf] at h
        have h2 : (if c = init then some (some n.full_name)
            else scanNames ns init lastn) = some (some r) := h
        split_ifs at h2 with hc
        · cases h2
          exact ⟨n, List.mem_cons_self _ _, rfl⟩
        · obtain ⟨m, hm, he⟩ := ih h2
          exact ⟨m, List.mem_cons_of_mem _ hm, he⟩

theorem name_edit_distances_mem {ref : String} {others : List String}
    {p : String × Nat} :
    p ∈ name_edit_distances ref others ↔
      p.1 ∈ others ∧ p.2 = edit_distance p.1 ref := by
  unfold name_edit_distances
  rw [List.mem_insertionSort]
  constructor
  · intro hp
    obtain ⟨n, hn, he⟩ := List.mem_map.mp hp
    cases he
    exact ⟨hn, rfl⟩
  · intro ⟨h1, h2⟩
    apply List.mem_map.mpr
    refine ⟨p.1, h1, ?_⟩
    obtain ⟨p1, p2⟩ := p
    simp only at h2 ⊢
    rw [h2]

theorem name_edit_distances_length (ref : String) (others : List String) :
    (name_edit_distances ref others).length = others.length := by
  unfold name_edit_distances
  rw [(List.perm_insertionSort distLE _).length_eq, List.length_map]

/-- Every `Name` object built by `create_name_objects` has a non-empty first
name, and its `full_name` is the stripped form of some universe entry. -/
theorem create_name_objects_spec {univ : List String} {nm : PName}
    (h : nm ∈ create_name_objects univ) :
    nm.first ≠ [] ∧ ∃ v ∈ univ, nm.full_name = String.mk (stripChars v.data) := by
  obtain ⟨v, hv, hmk⟩ := List.mem_filterMap.mp h
  obtain ⟨hfull, hmatch⟩ := mkName_spec hmk
  exact ⟨matchFullName_first_ne_nil hmatch, v, hv, hfull⟩

/-! ## Claims -/

/-- Seven player rows for team `A` on game date 1 whose opponent `B` has no
rows on that date: a snapshot exercising the empty-opponent lookup. -/
def c1PStats : List PRow :=
  [⟨1, "A", "B", 1, 1, "P1", true⟩, ⟨1, "A", "B", 1, 1, "P2", true⟩,
   ⟨1, "A", "B", 1, 1, "P3", true⟩, ⟨1, "A", "B", 1, 1, "P4", true⟩,
   ⟨1, "A", "B", 1, 1, "P5", true⟩, ⟨1, "A", "B", 1, 1, "P6", false⟩,
   ⟨1, "A", "B", 1, 1, "P7", false⟩]

/-- A converter with empty reference sets. -/
def c1Conv : NameConverter := ⟨[], [], [], [], true⟩

/-- C1: the claim states that `DBIntegrityCheck.run` never raises and that
the empty-opponent player-group case is recorded only in the discrepancy
log.  The code disagrees: on `c1PStats` (a group passing checks 1-4 whose
opponent has no same-date rows) the unguarded `opp_gids[0]` subscript of
`__inspect_team_gd_group` raises `IndexError`, so `run` aborts instead of
logging. -/
theorem c1_run_raises_on_missing_opponent :
    DBIntegrityCheck.run c1PStats [] [] [] [] c1Conv =
      .error "IndexError: list index out of range" := by rfl

/-- C2: for every pair `(old, nw)` in the non-canonical-to-canonical mapping
table, `NameConverter.clean old` returns `nw` and leaves the converter
unchanged — with no side condition on the known or known-missing sets, so
the pairing table always wins. -/
theorem clean_pair_wins (c : NameConverter) (old nw : String)
    (h : c.known_pairs.lookup old = some nw) :
    c.clean old = (c, .ok (some nw)) := by
  unfold NameConverter.clean
  rw [h]

/-- A converter whose pairing table maps `"Jo"` to `"Joe"` while `"Jo"` is
simultaneously a member of the known-canonical set and the known-missing
set. -/
def c2Conv : NameConverter := ⟨[("Jo", "Joe")], ["Jo"], ["Jo"], [], true⟩

/-- Witness for C2: the pairing table wins even though `"Jo"` is also known
and known-missing. -/
theorem clean_pair_wins_witness :
    c2Conv.known_pairs.lookup "Jo" = some "Joe" ∧
      c2Conv.clean "Jo" = (c2Conv, .ok (some "Joe")) :=
  ⟨by rfl, clean_pair_wins c2Conv "Jo" "Joe" (by rfl)⟩

/-- A converter in which the known name `"X"` is also a pairing-table key. -/
def c3Conv : NameConverter := ⟨[("X", "Y")], [], ["X"], [], true⟩

/-- C3 counterexample: the claim says every member of the known-canonical
universe is returned unchanged, but `clean` consults the pairing table
first, so the known name `"X"` is rewritten to `"Y"`. -/
theorem clean_known_name_rewritten :
    "X" ∈ c3Conv.known ∧ (c3Conv.clean "X").2 = .ok (some "Y") ∧ "Y" ≠ "X" :=
  ⟨by decide, by rfl, by decide⟩

/-- C3 amended: every name of the known-canonical universe that is not a key
of the pairing table is returned unchanged (and the converter state is
untouched). -/
theorem clean_known_id (c : NameConverter) (n : String)
    (hk : n ∈ c.known) (hp : c.known_pairs.lookup n = none) :
    c.clean n = (c, .ok (some n)) := by
  unfold NameConverter.clean
  rw [hp, if_pos (Or.inr hk)]

/-- A converter knowing only the name `"Al"`. -/
def c3WConv : NameConverter := ⟨[], [], ["Al"], [], true⟩

/-- Witness for the amended C3 at the known name `"Al"`. -/
theorem clean_known_id_witness :
    "Al" ∈ c3WConv.known ∧ c3WConv.known_pairs.lookup "Al" = none ∧
      c3WConv.clean "Al" = (c3WConv, .ok (some "Al")) :=
  ⟨by decide, by rfl, clean_known_id c3WConv "Al" (by decide) (by rfl)⟩

/-- The well-formed team pair of C7. -/
def c7Row1 : TRow := ⟨1, 10, 5, "A", "B", true, 0, -3, 210⟩

/-- Second row of the well-formed pair. -/
def c7Row2 : TRow := ⟨2, 10, 5, "B", "A", false, 0, 3, 210⟩

/-- C7: the concrete two-row group passes all seven team-pair invariants
(no discrepancy); with the second row's home flag also true, exactly the
`"2 home teams"` discrepancy is logged, and — for arbitrary overtime,
spread, and total-points values, violating or not — checks 5-7 are never
evaluated. -/
theorem gid_grp_pair_check (ot1 ot2 : Nat) (sp1 sp2 pt1 pt2 : Int) :
    inspect_gid_grp [c7Row1, c7Row2] 10 = [] ∧
      inspect_gid_grp
        [⟨1, 10, 5, "A", "B", true, ot1, sp1, pt1⟩,
         ⟨2, 10, 5, "B", "A", true, ot2, sp2, pt2⟩] 10 =
        [⟨"TStats", "gid = 10", "2 home teams"⟩] :=
  ⟨by rfl, by rfl⟩

/-- Witness for C7 at overtime 0/0 and gross spread/points violations,
which are still not reported. -/
theorem gid_grp_pair_check_witness :
    inspect_gid_grp [c7Row1, c7Row2] 10 = [] ∧
      inspect_gid_grp
        [⟨1, 10, 5, "A", "B", true, 0, 99, 999⟩,
         ⟨2, 10, 5, "B", "A", true, 0, 99, 0⟩] 10 =
        [⟨"TStats", "gid = 10", "2 home teams"⟩] :=
  gid_grp_pair_check 0 0 99 99 999 0

/-- C8: for every input whose stripped form contains no whitespace (a
single-token name, with no internal whitespace), `Name` construction fails:
the pattern's mandatory separator cannot match, so `m.group` raises. -/
theorem mkName_single_token (s : String)
    (h : ∀ c ∈ stripChars s.data, isWS c = false) :
    mkName? s = none := by
  have ht : nameSplits (stripChars s.data) = [] := by
    unfold nameSplits
    rw [List.filter_eq_nil_iff]
    intro i hi hcond
    simp only [Bool.and_eq_true] at hcond
    have hlt : i < (stripChars s.data).length := List.mem_range.mp hi
    have h1 := hcond.2
    rw [List.getD_eq_getElem _ _ hlt] at h1
    rw [h _ (List.getElem_mem hlt)] at h1
    exact Bool.false_ne_true h1
  have hm : matchFullName (stripChars s.data) = none := by
    unfold matchFullName
    rw [ht]
    rfl
  simp only [mkName?]
  rw [hm]

/-- Witness for C8 at the single-token name `" Cher "` (whitespace only at
the ends). -/
theorem mkName_single_token_witness :
    (∀ c ∈ stripChars " Cher ".data, isWS c = false) ∧ mkName? " Cher " = none :=
  ⟨by decide, mkName_single_token " Cher " (by decide)⟩

/-- C9: `is_problematic` returns the converter state unchanged (in
particular `unhandled_names` never grows) together with a flag and a
non-empty reason string, for every converter and every name. -/
theorem is_problematic_frame (c : NameConverter) (n : String) :
    (c.is_problematic n).1 = c ∧ 0 < (c.is_problematic n).2.2.length := by
  unfold NameConverter.is_problematic
  cases h : c.known_pairs.lookup n with
  | some v =>
    refine ⟨rfl, ?_⟩
    show 0 < ("Should be " ++ v ++ ".").length
    rw [String.length_append, String.length_append]
    have e1 : "Should be ".length = 10 := by decide
    have e2 : ".".length = 1 := by decide
    omega
  | none =>
    refine ⟨?_, ?_⟩
    · show (if n ∈ c.known_missing then
          ((c, false, "Known to be missing from PStats.") :
            NameConverter × Bool × String)
        else if n ∈ c.known then (c, false, "In PStats.")
        else (c, true,
          "Not in PStats, no associated name, and not known to be missing.")).1
        = c
      split_ifs <;> rfl
    · show 0 < (if n ∈ c.known_missing then
          ((c, false, "Known to be missing from PStats.") :
            NameConverter × Bool × String)
        else if n ∈ c.known then (c, false, "In PStats.")
        else (c, true,
          "Not in PStats, no associated name, and not known to be missing.")).2.2.length
      split_ifs
      · show 0 < ("Known to be missing from PStats." : String).length
        decide
      · show 0 < ("In PStats." : String).length
        decide
      · show 0 <
          ("Not in PStats, no associated name, and not known to be missing." :
            String).length
        decide

/-- Witness for C9 at a concrete converter and an unknown name. -/
theorem is_problematic_frame_witness :
    (c2Conv.is_problematic "Bob").1 = c2Conv ∧
      0 < (c2Conv.is_problematic "Bob").2.2.length :=
  is_problematic_frame c2Conv "Bob"

/-- Evaluation of `solve` on the input `"C.J. Smith"`: after the exact-match
rule, the decomposition gives first name `"C.J."`, the with-periods initials
rule fires, and the synthesized `"CJ Smith"` is either found or the method
raises at once — for every universe and every alias table (the apostrophe,
hyphen, and alias rules are never consulted). -/
theorem solve_cj_eval (u : List String) (w : AliasWizard) :
    solve u w "C.J. Smith" =
      if "C.J. Smith" ∈ u then .ok "C.J. Smith"
      else if "CJ Smith" ∈ u then .ok "CJ Smith"
      else .error .pMissing := by
  by_cases h : "C.J. Smith" ∈ u
  · unfold solve
    rw [if_pos h, if_pos h]
  · unfold solve
    rw [if_neg h, if_neg h]
    rfl

/-- C5: with a universe containing `"CJ Smith"` (and not the raw input),
`solve` returns `"CJ Smith"`; with the universe `["Chris Smith"]` it raises
`PMissingError` immediately — under any alias table whatsoever, so the
apostrophe, hyphen-split, and alias rules are provably not attempted. -/
theorem solve_cj_cases (u : List String) (w : AliasWizard)
    (h1 : "CJ Smith" ∈ u) (h2 : "C.J. Smith" ∉ u) :
    solve u w "C.J. Smith" = .ok "CJ Smith" ∧
      solve ["Chris Smith"] w "C.J. Smith" = .error .pMissing := by
  constructor
  · rw [solve_cj_eval, if_neg h2, if_pos h1]
  · rw [solve_cj_eval]
    rfl

/-- Witness for C5 at the singleton universe and an alias table that would
map `"C.J."` to `"Chris"` if the alias rule were ever reached. -/
theorem solve_cj_cases_witness :
    solve ["CJ Smith"] ⟨[("Chris", "C.J.")]⟩ "C.J. Smith" = .ok "CJ Smith" ∧
      solve ["Chris Smith"] ⟨[("Chris", "C.J.")]⟩ "C.J. Smith" =
        .error .pMissing :=
  solve_cj_cases ["CJ Smith"] ⟨[("Chris", "C.J.")]⟩ (by decide) (by decide)

/-- Unfolding of `full_name` past the initial/last-name extraction. -/
theorem full_name_eq (w : AbbrevWizard) (abb : String) (init : Char)
    (lastn : List Char) (hg : getFirstInitLastName abb = some (init, lastn)) :
    w.full_name abb =
      match scanNames w.name_objs init lastn with
      | none => none
      | some (some res) => some (res, w)
      | some none =>
        match name_edit_distances abb w.raw_names with
        | [] => none
        | (res, _) :: _ =>
          some (res, { w with used_levenshtein := (abb, res) :: w.used_levenshtein }) := by
  unfold AbbrevWizard.full_name
  rw [hg]

/-- C4 counterexample: the claim promises a member of the universe, but
`Name.__init__` strips its input, so the first-initial/last-name scan can
return a whitespace-trimmed variant that is not in the universe. -/
theorem abbrev_scan_returns_stripped_variant :
    (AbbrevWizard.init [" Jo Smith"]).full_name "J. Smith" =
      some ("Jo Smith", AbbrevWizard.init [" Jo Smith"]) ∧
      "Jo Smith" ∉ [" Jo Smith"] :=
  ⟨by rfl, by decide⟩

/-- C4 amended: for every non-empty universe whose entries carry no leading
or trailing whitespace and every abbreviated name of length at least 4,
`full_name` returns (never raises) some member of the universe — by the
scan, or else by the edit-distance fallback, which always has a candidate. -/
theorem abbrev_resolver_total (univ : List String) (abb : String)
    (hne : univ ≠ []) (hlen : 4 ≤ abb.length)
    (hstrip : ∀ u ∈ univ, stripChars u.data = u.data) :
    ∃ res w2, (AbbrevWizard.init univ).full_name abb = some (res, w2) ∧
      res ∈ univ := by
  have hdlen : 4 ≤ abb.data.length := hlen
  have hd : abb.data ≠ [] := by
    intro h0
    rw [h0] at hdlen
    simp at hdlen
  obtain ⟨c, cs, hcs⟩ := List.exists_cons_of_ne_nil hd
  have hg : getFirstInitLastName abb = some (c, abb.data.drop 3) := by
    unfold getFirstInitLastName
    rw [hcs]
  have hobj : ∀ n ∈ (AbbrevWizard.init univ).name_objs, n.first ≠ [] :=
    fun n hn => (create_name_objects_spec hn).1
  cases hs : scanNames (AbbrevWizard.init univ).name_objs c (abb.data.drop 3) with
  | none => exact absurd hs (scanNames_ne_none hobj)
  | some o =>
    cases o with
    | some r =>
      refine ⟨r, AbbrevWizard.init univ, ?_, ?_⟩
      · rw [full_name_eq _ _ _ _ hg, hs]
      · obtain ⟨n, hn, hr⟩ := scanNames_mem hs
        obtain ⟨-, v, hv, hfull⟩ := create_name_objects_spec hn
        rw [hr, hfull, hstrip v hv]
        show v ∈ univ
        exact hv
    | none =>
      cases hed : name_edit_distances abb (AbbrevWizard.init univ).raw_names with
      | nil =>
        have hl := name_edit_distances_length abb (AbbrevWizard.init univ).raw_names
        rw [hed] at hl
        exact absurd (List.length_eq_zero.mp hl.symm) hne
      | cons p tl =>
        obtain ⟨r, d⟩ := p
        refine ⟨r, { AbbrevWizard.init univ with used_levenshtein :=
          (abb, r) :: (AbbrevWizard.init univ).used_levenshtein }, ?_, ?_⟩
        · rw [full_name_eq _ _ _ _ hg, hs, hed]
        · have hmem : (r, d) ∈
              name_edit_distances abb (AbbrevWizard.init univ).raw_names := by
            rw [hed]
            exact List.mem_cons_self _ _
          exact (name_edit_distances_mem.mp hmem).1

/-- Witness for the amended C4 at the one-entry universe `["Jo Smith"]` and
the abbreviation `"J. Smith"`. -/
theorem abbrev_resolver_total_witness :
    (["Jo Smith"] : List String) ≠ [] ∧ 4 ≤ ("J. Smith" : String).length ∧
      (∀ u ∈ (["Jo Smith"] : List String), stripChars u.data = u.data) ∧
      ∃ res w2, (AbbrevWizard.init ["Jo Smith"]).full_name "J. Smith" =
        some (res, w2) ∧ res ∈ ["Jo Smith"] :=
  ⟨by decide, by decide, by decide,
    abbrev_resolver_total ["Jo Smith"] "J. Smith" (by decide) (by decide)
      (by decide)⟩

/-- C10: a universe entry whose string does not decompose (such as a
single-token name) is silently dropped from the decomposed-name list — its
full name is never among the scan's candidates — so if `full_name` ever
returns it, it did so through the edit-distance fallback, observable as the
logged `used_levenshtein` entry. Construction itself never fails. -/
theorem dropped_entry_only_via_fallback (univ : List String)
    (u abb res : String) (w2 : AbbrevWizard) (hu : mkName? u = none) :
    u ∉ (create_name_objects univ).map PName.full_name ∧
      ((AbbrevWizard.init univ).full_name abb = some (res, w2) → res = u →
        w2.used_levenshtein = [(abb, u)]) := by
  have h1 : u ∉ (create_name_objects univ).map PName.full_name := by
    intro hmem
    obtain ⟨nm, hnm, he⟩ := List.mem_map.mp hmem
    obtain ⟨v, hv, hmk⟩ := List.mem_filterMap.mp hnm
    obtain ⟨hfull, hmatch⟩ := mkName_spec hmk
    have hud : u.data = stripChars v.data := by
      have hcd := congrArg String.data (he.symm.trans hfull)
      exact hcd
    have h3 := mkName_none hu
    rw [hud, stripChars_idem, hmatch] at h3
    cases h3
  refine ⟨h1, ?_⟩
  intro hfn hres
  cases hg : getFirstInitLastName abb with
  | none =>
    unfold AbbrevWizard.full_name at hfn
    rw [hg] at hfn
    cases hfn
  | some p =>
    obtain ⟨init, lastn⟩ := p
    rw [full_name_eq _ _ _ _ hg] at hfn
    cases hs : scanNames (AbbrevWizard.init univ).name_objs init lastn with
    | none => rw [hs] at hfn; cases hfn
    | some o =>
      cases o with
      | some r =>
        rw [hs] at hfn
        cases hfn
        obtain ⟨nm, hnm, hr⟩ := scanNames_mem hs
        exact absurd (List.mem_map.mpr ⟨nm, hnm, (hr ▸ hres : nm.full_name = u)⟩) h1
      | none =>
        rw [hs] at hfn
        cases hed : name_edit_distances abb (AbbrevWizard.init univ).raw_names with
        | nil => rw [hed] at hfn; cases hfn
        | cons p2 tl =>
          obtain ⟨r, d⟩ := p2
          rw [hed] at hfn
          cases hfn
          rw [← hres]
          rfl

/-- Witness for C10: `"Cher"` does not decompose; with universe
`["Jo Smith", "Cher"]` and abbreviation `"Cher"`, the scan misses and the
fallback returns `"Cher"`, logging the resolution. -/
theorem dropped_entry_only_via_fallback_witness :
    mkName? "Cher" = none ∧
      ("Cher" ∉ (create_name_objects ["Jo Smith", "Cher"]).map PName.full_name ∧
        ((AbbrevWizard.init ["Jo Smith", "Cher"]).full_name "Cher" =
            some ("Cher", ⟨["Jo Smith", "Cher"],
              create_name_objects ["Jo Smith", "Cher"], [("Cher", "Cher")]⟩) →
          "Cher" = "Cher" →
          (⟨["Jo Smith", "Cher"], create_name_objects ["Jo Smith", "Cher"],
            [("Cher", "Cher")]⟩ : AbbrevWizard).used_levenshtein =
            [("Cher", "Cher")])) :=
  ⟨by rfl,
    dropped_entry_only_via_fallback ["Jo Smith", "Cher"] "Cher" "Cher" "Cher"
      ⟨["Jo Smith", "Cher"], create_name_objects ["Jo Smith", "Cher"],
        [("Cher", "Cher")]⟩ (by rfl)⟩

/-- Membership in the rows contributed by one reference name: exactly the
later names at distance below 4 that are not known-equivalent. -/
theorem pstats_name_rows_cons_mem {ks : List (String × String)} {r : String}
    {rest : List String} {e : NameLogEntry} :
    e ∈ ((name_edit_distances r rest).filter (fun p => p.2 < 4)).filterMap
        (fun p => if names_are_equiv ks r p.1 then none
          else some ⟨r, p.1, p.2⟩) ↔
      ∃ n ∈ rest, e = ⟨r, n, edit_distance n r⟩ ∧ edit_distance n r < 4 ∧
        names_are_equiv ks r n = false := by
  rw [List.mem_filterMap]
  constructor
  · rintro ⟨p, hp, hpe⟩
    obtain ⟨hmem, hlt⟩ := List.mem_filter.mp hp
    obtain ⟨hn, hdist⟩ := name_edit_distances_mem.mp hmem
    by_cases hq : names_are_equiv ks r p.1
    · rw [if_pos hq] at hpe
      cases hpe
    · rw [if_neg hq] at hpe
      cases hpe
      refine ⟨p.1, hn, ?_, ?_, ?_⟩
      · rw [hdist]
      · rw [← hdist]
        exact of_decide_eq_true hlt
      · exact Bool.not_eq_true _ ▸ hq
  · rintro ⟨n, hn, he, hlt, hq⟩
    refine ⟨(n, edit_distance n r), ?_, ?_⟩
    · apply List.mem_filter.mpr
      exact ⟨name_edit_distances_mem.mpr ⟨hn, rfl⟩, decide_eq_true hlt⟩
    · rw [if_neg (by rw [hq]; exact Bool.false_ne_true), he]

/-- Structure of the whole pre-sorted name log: its entries are exactly the
qualifying ordered pairs `(i, j)` with `i` before `j` in the list. -/
theorem pstats_name_rows_mem {ks : List (String × String)} {l : List String}
    {e : NameLogEntry} :
    e ∈ pstats_name_rows ks l ↔
      ∃ (i j : Nat) (hi : i < l.length) (hj : j < l.length), i < j ∧
        e = ⟨l.get ⟨i, hi⟩, l.get ⟨j, hj⟩,
          edit_distance (l.get ⟨j, hj⟩) (l.get ⟨i, hi⟩)⟩ ∧
        edit_distance (l.get ⟨j, hj⟩) (l.get ⟨i, hi⟩) < 4 ∧
        names_are_equiv ks (l.get ⟨i, hi⟩) (l.get ⟨j, hj⟩) = false := by
  induction l with
  | nil =>
    simp [pstats_name_rows]
  | cons r rest ih =>
    simp only [pstats_name_rows, List.mem_append]
    rw [pstats_name_rows_cons_mem, ih]
    constructor
    · rintro (⟨n, hn, he, hlt, hq⟩ | ⟨i, j, hi, hj, hij, he, hlt, hq⟩)
      · obtain ⟨⟨j, hjlt⟩, hget⟩ := List.mem_iff_get.mp hn
        refine ⟨0, j + 1, Nat.succ_pos _, Nat.succ_lt_succ hjlt,
          Nat.succ_pos _, ?_, ?_, ?_⟩ <;>
          simp only [List.get_cons_zero, List.get_cons_succ] <;>
          rw [hget] <;> assumption
      · refine ⟨i + 1, j + 1, Nat.succ_lt_succ hi, Nat.succ_lt_succ hj,
          Nat.succ_lt_succ hij, ?_, ?_, ?_⟩ <;>
          simp only [List.get_cons_succ] <;> assumption
    · rintro ⟨i, j, hi, hj, hij, he, hlt, hq⟩
      cases i with
      | zero =>
        obtain ⟨j', rfl⟩ : ∃ j', j = j' + 1 := ⟨j - 1, by omega⟩
        left
        have hj' : j' < rest.length := by simpa using hj
        simp only [List.get_cons_zero, List.get_cons_succ] at he hlt hq
        exact ⟨rest.get ⟨j', hj'⟩, List.get_mem _ _ _, he, hlt, hq⟩
      | succ i' =>
        obtain ⟨j', rfl⟩ : ∃ j', j = j' + 1 := ⟨j - 1, by omega⟩
        right
        have hi' : i' < rest.length := by simpa using hi
        have hj' : j' < rest.length := by simpa using hj
        simp only [List.get_cons_succ] at he hlt hq
        exact ⟨i', j', hi', hj', by omega, he, hlt, hq⟩

/-- C6: for every pair of positions `i` before `j` in the unique player-name
list, the pair (with its Levenshtein distance, note the source's
`edit_distance(name, ref_name)` argument order) is in the name log iff the
distance is strictly below the threshold 4 and the pair is not
known-equivalent (membership in `KnownSimilarPairs` tested in either
order). -/
theorem near_duplicate_log_iff (pstats : List PRow)
    (ks : List (String × String)) (i j : Nat)
    (hi : i < (uniqueFirst (pstats.map PRow.player)).length)
    (hj : j < (uniqueFirst (pstats.map PRow.player)).length) (hij : i < j) :
    (NameLogEntry.mk ((uniqueFirst (pstats.map PRow.player)).get ⟨i, hi⟩)
        ((uniqueFirst (pstats.map PRow.player)).get ⟨j, hj⟩)
        (edit_distance ((uniqueFirst (pstats.map PRow.player)).get ⟨j, hj⟩)
          ((uniqueFirst (pstats.map PRow.player)).get ⟨i, hi⟩)) ∈
        inspect_pstats_names pstats ks) ↔
      (edit_distance ((uniqueFirst (pstats.map PRow.player)).get ⟨j, hj⟩)
          ((uniqueFirst (pstats.map PRow.player)).get ⟨i, hi⟩) < 4 ∧
        names_are_equiv ks ((uniqueFirst (pstats.map PRow.player)).get ⟨i, hi⟩)
          ((uniqueFirst (pstats.map PRow.player)).get ⟨j, hj⟩) = false) := by
  unfold inspect_pstats_names
  rw [List.mem_insertionSort, pstats_name_rows_mem]
  constructor
  · rintro ⟨a, b, ha, hb, hab, he, hlt, hq⟩
    have e1 := congrArg NameLogEntry.name1 he
    have e2 := congrArg NameLogEntry.name2 he
    simp only at e1 e2
    rw [e1, e2]
    exact ⟨hlt, hq⟩
  · rintro ⟨hlt, hq⟩
    exact ⟨i, j, hi, hj, hij, rfl, hlt, hq⟩

/-- A two-row snapshot whose players are `"Jon Smith"` and `"John Smith"`. -/
def c6PStats : List PRow :=
  [⟨1, "A", "B", 1, 1, "Jon Smith", true⟩,
   ⟨1, "A", "B", 1, 1, "John Smith", false⟩]

/-- Witness for C6: `"Jon Smith"` and `"John Smith"` are at distance 1, so
with an empty pre-approved set the pair is logged (both directions of the
equivalence are exercised by `decide` on the closed instance). -/
theorem near_duplicate_log_iff_witness :
    (0 : Nat) < (uniqueFirst (c6PStats.map PRow.player)).length ∧
      (1 : Nat) < (uniqueFirst (c6PStats.map PRow.player)).length ∧
      (0 : Nat) < 1 ∧
      ((NameLogEntry.mk "Jon Smith" "John Smith"
          (edit_distance "John Smith" "Jon Smith") ∈
          inspect_pstats_names c6PStats []) ↔
        (edit_distance "John Smith" "Jon Smith" < 4 ∧
          names_are_equiv [] "Jon Smith" "John Smith" = false)) :=
  ⟨by decide, by decide, by decide,
    near_duplicate_log_iff c6PStats [] 0 1 (by decide) (by decide) (by decide)⟩

end PyUtils
